import Mathlib

/-!
Shallow embedding of the review-record-detail list page
(src/unnamed/part_000): variable-height virtual list layout,
binary search over the offset table, infinite-scroll fetch
controller with snapshot rollback, and the full-screen image viewer.

DOM reads are parameters (the scroll container's clientWidth is `w`);
DOM writes (class toggles, innerHTML, style) carry no list state and
are not modelled.  JavaScript array writes `a[i] = v` only ever occur
at `i ≤ a.length` in this program, so they are modelled by
`listWrite` (set in bounds, append at the end); out-of-range reads
(JS `undefined`, only guarded reads `x || 0` can see them) are
modelled by `List.getD _ _ 0`.
-/

namespace ReviewRecordDetail

/-- one dated record group: `{ report_date, image_urls }` as delivered by
the list API and stored in `state.groups`. -/
structure Group where
  image_urls : List String
  report_date : String
deriving DecidableEq

/-- JS `a[i] = v`: in-bounds write replaces, write at `i = a.length`
appends.  All writes in the embedded program satisfy `i ≤ a.length`. -/
def listWrite (l : List Nat) (i : Nat) (v : Nat) : List Nat :=
  if i < l.length then l.set i v else l ++ [v]

/-- thumbnail edge length for a given scroll-container clientWidth,
from `computeItemHeight`: `gridWidth = max(0, w - 32)`,
`thumb = max(56, floor((gridWidth - 2*8)/3))`.  Nat subtraction
truncates at 0 exactly where JS would produce a negative value that
the surrounding `Math.max` discards. -/
def thumbSize (containerWidth : Nat) : Nat :=
  let gridWidth := max 0 (containerWidth - 32)
  max 56 ((gridWidth - 8 * 2) / 3)

/-- `computeItemHeight(group)`: rows = `max(1, ceil(count/3))`,
grid height = `rows*thumb + (rows-1)*gap`, item height =
`16 + 24 + 12 + gridHeight + 16`. -/
def computeItemHeight (containerWidth : Nat) (g : Group) : Nat :=
  let images := g.image_urls
  let rows := max 1 ((images.length + 2) / 3)
  let gap := 8
  let thumb := thumbSize containerWidth
  let gridHeight := rows * thumb + (rows - 1) * gap
  16 + 24 + 12 + gridHeight + 16

/-- the mutable list-page state (the layout/pagination slice of the
module-level `state` object; DOM handles and the abort controller are
represented by how the operations below are wired together). -/
structure ListState where
  categoryCode : String
  reportMonth : String
  pageNum : Nat
  pageSize : Nat
  total : Nat
  groups : List Group
  heights : List Nat
  offsets : List Nat
  totalHeight : Nat
  isLoading : Bool
deriving DecidableEq

/-- the `for` loop of `recomputeLayout`, iterating over the groups at
indices `≥ i` (passed as the list `rest`):
`heights[i] = computeItemHeight(groups[i])`;
`offsets[i] = i === 0 ? 0 : offsets[i-1] + heights[i-1]`
(the heights read is from the just-updated array). -/
def layoutLoop (w : Nat) : List Group → Nat → List Nat → List Nat → List Nat × List Nat
  | [], _, hts, ofs => (hts, ofs)
  | gp :: rest, i, hts, ofs =>
    let hts1 := listWrite hts i (computeItemHeight w gp)
    let ofs1 := listWrite ofs i (if i = 0 then 0 else ofs.getD (i - 1) 0 + hts1.getD (i - 1) 0)
    layoutLoop w rest (i + 1) hts1 ofs1

/-- `recomputeLayout(fromIndex)`: recompute heights and offsets for all
indices `≥ fromIndex`, then `totalHeight = lastIndex >= 0 ?
offsets[lastIndex] + heights[lastIndex] : 0`.  `fromIndex` is a `Nat`,
so the source's `Math.max(0, fromIndex)` is the identity. -/
def recomputeLayout (w : Nat) (s : ListState) (fromIndex : Nat) : ListState :=
  let R := layoutLoop w (s.groups.drop fromIndex) fromIndex s.heights s.offsets
  let n := s.groups.length
  let th := if 0 < n then R.2.getD (n - 1) 0 + R.1.getD (n - 1) 0 else 0
  { s with heights := R.1, offsets := R.2, totalHeight := th }

/-- `isAllLoaded()`: `state.total > 0 && state.groups.length >= state.total`. -/
def isAllLoaded (s : ListState) : Bool :=
  decide (0 < s.total) && decide (s.total ≤ s.groups.length)

/-- the `while (low <= high)` loop of `findIndexByScrollTop`, with a
fuel argument for structural recursion (the caller passes more fuel
than the loop can consume, see `findIndexByScrollTop`).  `mid = (low +
high) >> 1` (both non-negative there), `start = offsets[mid] || 0`,
`end = start + (heights[mid] || 0)`; on exhaustion of the interval the
answer is `Math.max(0, Math.min(low, n - 1))`, which for `low : Nat`
is `min low (n - 1)` (also when `n = 0`, where JS gets `max(0, -1) = 0`
and Nat gets `min low 0 = 0`). -/
def bsearchLoop (offsets heights : List Nat) (n : Nat) (probe : Int) :
    Nat → Nat → Int → Nat
  | 0, low, _ => min low (n - 1)
  | fuel + 1, low, high =>
    if (low : Int) ≤ high then
      let mid := (low + high.toNat) / 2
      let start := offsets.getD mid 0
      let stop := start + heights.getD mid 0
      if (stop : Int) ≤ probe then bsearchLoop offsets heights n probe fuel (mid + 1) high
      else if probe < (start : Int) then
        bsearchLoop offsets heights n probe fuel low ((mid : Int) - 1)
      else mid
    else min low (n - 1)

/-- `findIndexByScrollTop(scrollTop)` over a layout table with `n`
entries: binary search starting from `low = 0`, `high = n - 1`.
Fuel `n + 1` strictly dominates the initial interval size, so the
fuel case of `bsearchLoop` is never reached (proved in the lemmas). -/
def findIndexByScrollTop (offsets heights : List Nat) (n : Nat) (probe : Int) : Nat :=
  bsearchLoop offsets heights n probe (n + 1) 0 ((n : Int) - 1)

/-- `handleScroll()` after its `renderVirtual()` call: whether a
`loadPage({reset:false})` is triggered, i.e. not loading, not
all-loaded, and `totalHeight - (scrollTop + clientHeight) < 600`. -/
def handleScroll (s : ListState) (scrollTop clientHeight : Int) : Bool :=
  if s.isLoading then false
  else if isAllLoaded s then false
  else decide ((s.totalHeight : Int) - (scrollTop + clientHeight) < 600)

/-- the snapshot `preserveGroups/Heights/Offsets/TotalHeight/Total`
taken by `loadPage` right before issuing the fetch, plus the `reset`
flag the completion handler closes over. -/
structure PendingRequest where
  reset : Bool
  pGroups : List Group
  pHeights : List Nat
  pOffsets : List Nat
  pTotalHeight : Nat
  pTotal : Nat
deriving DecidableEq

/-- result of the synchronous part of a `loadPage` call: the state
after the call returns, the pending request (`none` when no fetch was
issued), and how many configuration-error toasts were shown. -/
structure IssueResult where
  state : ListState
  pending : Option PendingRequest
  configToasts : Nat
deriving DecidableEq

/-- the synchronous part of `loadPage({reset})`: the `isLoading`
guard, the missing-category check (toast, no request), `pageNum = 1`
on reset, then snapshot + fetch issue with `isLoading = true`. -/
def loadPageIssue (reset : Bool) (s : ListState) : IssueResult :=
  if s.isLoading then ⟨s, none, 0⟩
  else if s.categoryCode = "" then ⟨s, none, 1⟩
  else
    let s1 := if reset then { s with pageNum := 1 } else s
    ⟨{ s1 with isLoading := true },
     some ⟨reset, s1.groups, s1.heights, s1.offsets, s1.totalHeight, s1.total⟩, 0⟩

/-- how the network request issued by `loadPage` completes. -/
inductive FetchOutcome where
  | success (total : Nat) (list : List Group)
  | failure
  | aborted
deriving DecidableEq

/-- the `.then`/`.catch`/`.finally` handlers of `loadPage`, applied to
the state current at completion time: on success set `total`, replace
(reset) or append (load-more, relayout from the old length) the
groups, then either mark all-loaded or advance `pageNum`; on a
non-abort failure restore the snapshot and `recomputeLayout(0)`; on
abort only the `finally` runs.  `finally` clears `isLoading`. -/
def applyOutcome (w : Nat) (p : PendingRequest) (outcome : FetchOutcome)
    (s : ListState) : ListState :=
  match outcome with
  | .success total list =>
    let s1 := { s with total := total }
    let s2 :=
      if p.reset then
        recomputeLayout w
          { s1 with groups := list, heights := [], offsets := [], totalHeight := 0 } 0
      else
        recomputeLayout w { s1 with groups := s1.groups ++ list } s1.groups.length
    let s3 := if isAllLoaded s2 then s2 else { s2 with pageNum := s2.pageNum + 1 }
    { s3 with isLoading := false }
  | .failure =>
    let s1 := { s with groups := p.pGroups, heights := p.pHeights, offsets := p.pOffsets,
                       totalHeight := p.pTotalHeight, total := p.pTotal }
    let s2 := recomputeLayout w s1 0
    { s2 with isLoading := false }
  | .aborted => { s with isLoading := false }

/-- outcome of a whole `loadPage` call whose request (if any)
completes with no other event interleaved. -/
structure LoadResult where
  state : ListState
  requestSent : Bool
  configToasts : Nat
deriving DecidableEq

/-- `loadPage({reset})` with its request completing uninterleaved. -/
def loadPage (w : Nat) (reset : Bool) (s : ListState) (outcome : FetchOutcome) :
    LoadResult :=
  let r := loadPageIssue reset s
  match r.pending with
  | none => ⟨r.state, false, r.configToasts⟩
  | some p => ⟨applyOutcome w p outcome r.state, true, r.configToasts⟩

/-- the month-picker `change` handler: ignore an empty value, else set
`reportMonth`, clear groups/heights/offsets/totalHeight/total, and
call `loadPage({reset:true})`. -/
def monthChange (val : String) (s : ListState) : IssueResult :=
  if val = "" then ⟨s, none, 0⟩
  else
    loadPageIssue true
      { s with reportMonth := val, groups := [], heights := [], offsets := [],
               totalHeight := 0, total := 0 }

/-- the viewer slice of the state (touch bookkeeping omitted). -/
structure ViewerState where
  isOpen : Bool
  images : List String
  index : Nat
deriving DecidableEq

/-- `prevImage()`: no-op on an empty image list, else
`index = (index - 1 + len) % len` (written with Nat addition first;
`index + len ≥ 1` in this branch, so it equals the JS value). -/
def prevImage (v : ViewerState) : ViewerState :=
  if v.images.length = 0 then v
  else { v with index := (v.index + v.images.length - 1) % v.images.length }

/-- `nextImage()`: no-op on an empty image list, else
`index = (index + 1) % len`. -/
def nextImage (v : ViewerState) : ViewerState :=
  if v.images.length = 0 then v
  else { v with index := (v.index + 1) % v.images.length }

/-- `closeViewer()`: the state part is `isOpen = false`. -/
def closeViewer (v : ViewerState) : ViewerState :=
  { v with isOpen := false }

/-- the in-flight image load started by `renderViewerImage`: the
captured `url = urls[idx]` plus, as bookkeeping for stating the
race claims, the index the load was issued for. -/
structure ViewerLoad where
  url : String
  forIndex : Nat
deriving DecidableEq

/-- the load `renderViewerImage` starts for the current index. -/
def startViewerLoad (v : ViewerState) : ViewerLoad :=
  ⟨v.images.getD v.index "", v.index⟩

/-- the `img.onload` handler of `renderViewerImage`, applied to the
viewer state current when the load completes: it returns early when
the viewer is closed, otherwise it displays the captured `url`
(`some u` = the displayed image is set to `u`, `none` = nothing is
rendered). -/
def onViewerImageLoad (v : ViewerState) (load : ViewerLoad) : Option String :=
  if v.isOpen then some load.url else none

/-- iterate a state transformer `k` times. -/
def applyN (f : α → α) : Nat → α → α
  | 0, a => a
  | k + 1, a => applyN f k (f a)

/-! ### basic facts about `listWrite` and partial sums -/

theorem listWrite_eq (l : List Nat) (i v : Nat) (h : i ≤ l.length) :
    listWrite l i v = l.take i ++ v :: l.drop (i + 1) := by
  induction l generalizing i with
  | nil =>
    simp only [List.length_nil, Nat.le_zero] at h
    subst h
    simp [listWrite]
  | cons a t ih =>
    cases i with
    | zero => simp [listWrite]
    | succ j =>
      have hj : j ≤ t.length := by simpa using h
      have hstep : listWrite (a :: t) (j + 1) v = a :: listWrite t j v := by
        by_cases hlt : j < t.length
        · simp [listWrite, hlt, Nat.succ_lt_succ_iff]
        · have hje : ¬ (j + 1 < (a :: t).length) := by simp; omega
          simp [listWrite, hlt, hje]
      rw [hstep, ih j hj]
      simp

theorem listWrite_length (l : List Nat) (i v : Nat) (h : i ≤ l.length) :
    (listWrite l i v).length = max l.length (i + 1) := by
  rw [listWrite_eq l i v h]
  simp
  omega

theorem listWrite_getElem?_lt (l : List Nat) (i v j : Nat) (hji : j < i)
    (h : i ≤ l.length) : (listWrite l i v)[j]? = l[j]? := by
  rw [listWrite_eq l i v h]
  have h1 : j < (l.take i).length := by simp; omega
  rw [List.getElem?_append, if_pos h1, List.getElem?_take, if_pos hji]

theorem listWrite_getD_lt (l : List Nat) (i v j : Nat) (hji : j < i)
    (h : i ≤ l.length) : (listWrite l i v).getD j 0 = l.getD j 0 := by
  rw [List.getD_eq_getElem?_getD, List.getD_eq_getElem?_getD,
    listWrite_getElem?_lt l i v j hji h]

theorem listWrite_getD_self (l : List Nat) (i v : Nat) (h : i ≤ l.length) :
    (listWrite l i v).getD i 0 = v := by
  rw [List.getD_eq_getElem?_getD, listWrite_eq l i v h]
  have h1 : (l.take i).length = i := by simp; omega
  rw [List.getElem?_append, if_neg (by omega), h1]
  simp

theorem listWrite_take_succ (l : List Nat) (i v : Nat) (h : i ≤ l.length) :
    (listWrite l i v).take (i + 1) = l.take i ++ [v] := by
  rw [listWrite_eq l i v h]
  have h1 : (l.take i).length = i := by simp; omega
  rw [show i + 1 = (l.take i).length + 1 by omega, List.take_append]
  simp

theorem sum_take_succ_getD (l : List Nat) (j : Nat) (h : j < l.length) :
    (l.take (j + 1)).sum = (l.take j).sum + l.getD j 0 := by
  rw [List.sum_take_succ l j h, List.getD_eq_getElem?_getD,
    List.getElem?_eq_getElem h]
  simp

theorem sum_take_mono (l : List Nat) (i j : Nat) (h : i ≤ j) :
    (l.take i).sum ≤ (l.take j).sum := by
  rw [show j = i + (j - i) by omega, List.take_add]
  simp

theorem sum_take_le (l : List Nat) (i : Nat) : (l.take i).sum ≤ l.sum := by
  calc (l.take i).sum ≤ (l.take i).sum + (l.drop i).sum := Nat.le_add_right _ _
    _ = ((l.take i) ++ (l.drop i)).sum := (List.sum_append).symm
    _ = l.sum := by rw [List.take_append_drop]

theorem listWrite_take_le (l : List Nat) (i v j : Nat) (hj : j ≤ i)
    (h : i ≤ l.length) : (listWrite l i v).take j = l.take j := by
  rw [listWrite_eq l i v h,
    List.take_append_of_le_length (by simp; omega), List.take_take,
    Nat.min_eq_left hj]

/-! ### the layout loop: canonical heights and offsets -/

/-- running the `recomputeLayout` loop from index `i` over the
remaining groups `rest`, on a table whose entries below `i` already
hold prefix sums, produces exactly the canonical heights
`hts.take i ++ rest.map (computeItemHeight w)` and offsets equal to
its prefix sums at every index. -/
theorem layoutLoop_spec (w : Nat) :
    ∀ (rest : List Group) (i : Nat) (hts ofs : List Nat),
      i ≤ hts.length → hts.length ≤ i + rest.length →
      i ≤ ofs.length → ofs.length ≤ i + rest.length →
      (∀ j, j < i → ofs.getD j 0 = (hts.take j).sum) →
      (layoutLoop w rest i hts ofs).1
          = hts.take i ++ rest.map (computeItemHeight w) ∧
        (layoutLoop w rest i hts ofs).2.length = i + rest.length ∧
        ∀ j, j < i + rest.length →
          (layoutLoop w rest i hts ofs).2.getD j 0
            = ((hts.take i ++ rest.map (computeItemHeight w)).take j).sum := by
  intro rest
  induction rest with
  | nil =>
    intro i hts ofs hh1 hh2 ho1 ho2 hinv
    simp only [List.length_nil, Nat.add_zero] at hh2 ho2
    refine ⟨?_, ?_, ?_⟩
    · simp [layoutLoop, List.take_of_length_le hh2]
    · simpa [layoutLoop] using le_antisymm ho2 ho1
    · intro j hj
      simp only [List.length_nil, Nat.add_zero] at hj
      have hj' : j ≤ i := by omega
      have hj'' : j < i := by omega
      simp only [layoutLoop, List.map_nil, List.append_nil, List.take_take,
        Nat.min_eq_left hj']
      exact hinv j hj''
  | cons gp rs ih =>
    intro i hts ofs hh1 hh2 ho1 ho2 hinv
    have hlen := List.length_cons gp rs
    have hunfold :
        layoutLoop w (gp :: rs) i hts ofs
          = layoutLoop w rs (i + 1)
              (listWrite hts i (computeItemHeight w gp))
              (listWrite ofs i
                (if i = 0 then 0
                 else ofs.getD (i - 1) 0
                   + (listWrite hts i (computeItemHeight w gp)).getD (i - 1) 0)) := rfl
    have hh1' : i + 1 ≤ (listWrite hts i (computeItemHeight w gp)).length := by
      rw [listWrite_length hts i _ hh1]; omega
    have hh2' : (listWrite hts i (computeItemHeight w gp)).length ≤ (i + 1) + rs.length := by
      rw [listWrite_length hts i _ hh1]
      simp only [hlen] at hh2
      omega
    have ho1' : i + 1 ≤ (listWrite ofs i
        (if i = 0 then 0
         else ofs.getD (i - 1) 0
           + (listWrite hts i (computeItemHeight w gp)).getD (i - 1) 0)).length := by
      rw [listWrite_length ofs i _ ho1]; omega
    have ho2' : (listWrite ofs i
        (if i = 0 then 0
         else ofs.getD (i - 1) 0
           + (listWrite hts i (computeItemHeight w gp)).getD (i - 1) 0)).length
          ≤ (i + 1) + rs.length := by
      rw [listWrite_length ofs i _ ho1]
      simp only [hlen] at ho2
      omega
    have hwval :
        (if i = 0 then 0
         else ofs.getD (i - 1) 0
           + (listWrite hts i (computeItemHeight w gp)).getD (i - 1) 0)
          = ((listWrite hts i (computeItemHeight w gp)).take i).sum := by
      rw [listWrite_take_le hts i _ i (le_refl i) hh1]
      rcases Nat.eq_zero_or_pos i with hi0 | hipos
      · subst hi0; simp
      · have hi1 : i - 1 < i := by omega
        rw [if_neg (by omega), listWrite_getD_lt hts i _ (i - 1) hi1 hh1,
          hinv (i - 1) hi1, ← sum_take_succ_getD hts (i - 1) (by omega)]
        congr 2
        omega
    have hinv' : ∀ j, j < i + 1 →
        (listWrite ofs i
          (if i = 0 then 0
           else ofs.getD (i - 1) 0
             + (listWrite hts i (computeItemHeight w gp)).getD (i - 1) 0)).getD j 0
          = ((listWrite hts i (computeItemHeight w gp)).take j).sum := by
      intro j hj
      rcases Nat.lt_or_ge j i with hji | hji
      · rw [listWrite_getD_lt ofs i _ j hji ho1,
          listWrite_take_le hts i _ j (le_of_lt hji) hh1]
        exact hinv j hji
      · have hji' : j = i := by omega
        subst hji'
        rw [listWrite_getD_self ofs j _ ho1, hwval]
    obtain ⟨hA, hB, hC⟩ := ih (i + 1) _ _ hh1' hh2' ho1' ho2' hinv'
    rw [listWrite_take_succ hts i _ hh1] at hA hC
    refine ⟨?_, ?_, ?_⟩
    · rw [hunfold, hA, List.map_cons, List.append_assoc]
      rfl
    · rw [hunfold, hB, hlen]
      omega
    · intro j hj
      rw [hunfold, hC j (by rw [hlen] at hj; omega), List.map_cons,
        List.append_assoc]
      rfl

/-- the `recomputeLayout` loop never touches table entries below the
index it starts from. -/
theorem layoutLoop_frame (w : Nat) :
    ∀ (rest : List Group) (i : Nat) (hts ofs : List Nat) (j : Nat),
      j < i → i ≤ hts.length → i ≤ ofs.length →
      (layoutLoop w rest i hts ofs).1[j]? = hts[j]? ∧
        (layoutLoop w rest i hts ofs).2[j]? = ofs[j]? := by
  intro rest
  induction rest with
  | nil => intro i hts ofs j hj hh ho; exact ⟨rfl, rfl⟩
  | cons gp rs ih =>
    intro i hts ofs j hj hh ho
    have hunfold :
        layoutLoop w (gp :: rs) i hts ofs
          = layoutLoop w rs (i + 1) (listWrite hts i (computeItemHeight w gp))
              (listWrite ofs i
                (if i = 0 then 0
                 else ofs.getD (i - 1) 0
                   + (listWrite hts i (computeItemHeight w gp)).getD (i - 1) 0)) := rfl
    rw [hunfold]
    generalize (if i = 0 then 0
      else ofs.getD (i - 1) 0
        + (listWrite hts i (computeItemHeight w gp)).getD (i - 1) 0) = wv
    obtain ⟨hA, hB⟩ := ih (i + 1) (listWrite hts i (computeItemHeight w gp))
      (listWrite ofs i wv) j (by omega)
      (by rw [listWrite_length hts i _ hh]; omega)
      (by rw [listWrite_length ofs i _ ho]; omega)
    exact ⟨hA.trans (listWrite_getElem?_lt hts i _ j hj hh),
      hB.trans (listWrite_getElem?_lt ofs i _ j hj ho)⟩

/-- `recomputeLayout(fromIndex)` on a table whose entries below
`fromIndex` hold prefix sums: heights become the canonical per-group
heights (old below `fromIndex`, freshly computed from there on),
offsets are the prefix sums of those heights everywhere, and
`totalHeight` is their total. -/
theorem recomputeLayout_spec (w : Nat) (s : ListState) (fromIndex : Nat)
    (hh1 : fromIndex ≤ s.heights.length) (hh2 : s.heights.length ≤ s.groups.length)
    (ho1 : fromIndex ≤ s.offsets.length) (ho2 : s.offsets.length ≤ s.groups.length)
    (hinv : ∀ j, j < fromIndex → s.offsets.getD j 0 = (s.heights.take j).sum) :
    (recomputeLayout w s fromIndex).heights
        = s.heights.take fromIndex
            ++ (s.groups.drop fromIndex).map (computeItemHeight w) ∧
      (recomputeLayout w s fromIndex).heights.length = s.groups.length ∧
      (recomputeLayout w s fromIndex).offsets.length = s.groups.length ∧
      (∀ j, j < s.groups.length →
        (recomputeLayout w s fromIndex).offsets.getD j 0
          = ((recomputeLayout w s fromIndex).heights.take j).sum) ∧
      (recomputeLayout w s fromIndex).totalHeight
        = (recomputeLayout w s fromIndex).heights.sum := by
  have hfi : fromIndex ≤ s.groups.length := le_trans hh1 hh2
  have hdl : (s.groups.drop fromIndex).length = s.groups.length - fromIndex := by simp
  obtain ⟨hA, hB, hC⟩ := layoutLoop_spec w (s.groups.drop fromIndex) fromIndex
    s.heights s.offsets hh1 (by rw [hdl]; omega) ho1 (by rw [hdl]; omega) hinv
  have eh : (recomputeLayout w s fromIndex).heights
      = (layoutLoop w (s.groups.drop fromIndex) fromIndex s.heights s.offsets).1 := rfl
  have eo : (recomputeLayout w s fromIndex).offsets
      = (layoutLoop w (s.groups.drop fromIndex) fromIndex s.heights s.offsets).2 := rfl
  have et : (recomputeLayout w s fromIndex).totalHeight
      = (if 0 < s.groups.length then
          (layoutLoop w (s.groups.drop fromIndex) fromIndex s.heights s.offsets).2.getD
              (s.groups.length - 1) 0
            + (layoutLoop w (s.groups.drop fromIndex) fromIndex s.heights s.offsets).1.getD
              (s.groups.length - 1) 0
         else 0) := rfl
  have hHlen : (recomputeLayout w s fromIndex).heights.length = s.groups.length := by
    rw [eh, hA]
    simp
    omega
  refine ⟨by rw [eh, hA], hHlen, ?_, ?_, ?_⟩
  · rw [eo, hB, hdl]; omega
  · intro j hj
    rw [eo, eh, hA]
    exact hC j (by rw [hdl]; omega)
  · rcases Nat.eq_zero_or_pos s.groups.length with hz | hpos
    · rw [et, if_neg (by omega), eh, hA]
      have : s.heights.length = 0 := by omega
      have hhe : s.heights = [] := List.eq_nil_of_length_eq_zero this
      have hge : s.groups = [] := List.eq_nil_of_length_eq_zero hz
      simp [hhe, hge]
    · have hgd : (s.heights.take fromIndex
            ++ (s.groups.drop fromIndex).map (computeItemHeight w)).length
          = s.groups.length := by
        simp
        omega
      rw [et, if_pos hpos, eh, hA, hC (s.groups.length - 1) (by rw [hdl]; omega),
        ← sum_take_succ_getD _ (s.groups.length - 1) (by rw [hgd]; omega),
        show s.groups.length - 1 + 1 = s.groups.length by omega,
        List.take_of_length_le (le_of_eq hgd)]

/-! ### claims about the layout engine -/

/-- C1: after every `recomputeLayout(fromIndex)` on a state whose
layout-table entries below `fromIndex` already satisfy the invariant
(`offsets[0] = 0`, `offsets[j] = offsets[j-1] + heights[j-1]`), the
whole table satisfies `offsets[0] = 0` and
`offsets[j] = offsets[j-1] + heights[j-1]` for every `j > 0`
(equivalently `offsets[j]` is the sum of `heights[0..j-1]`), and
`totalHeight` equals the sum of all heights (0 for an empty group
sequence).  The length bounds say the table is index-aligned with the
group sequence up to `fromIndex`, as in every reachable state. -/
theorem claim_C1_recomputeLayout_invariant (w : Nat) (s : ListState) (fromIndex : Nat)
    (hh1 : fromIndex ≤ s.heights.length) (hh2 : s.heights.length ≤ s.groups.length)
    (ho1 : fromIndex ≤ s.offsets.length) (ho2 : s.offsets.length ≤ s.groups.length)
    (hinv0 : 0 < fromIndex → s.offsets.getD 0 0 = 0)
    (hinvS : ∀ j, 0 < j → j < fromIndex →
      s.offsets.getD j 0 = s.offsets.getD (j - 1) 0 + s.heights.getD (j - 1) 0) :
    (0 < (recomputeLayout w s fromIndex).groups.length →
        (recomputeLayout w s fromIndex).offsets.getD 0 0 = 0) ∧
      (∀ j, 0 < j → j < (recomputeLayout w s fromIndex).groups.length →
        (recomputeLayout w s fromIndex).offsets.getD j 0
          = (recomputeLayout w s fromIndex).offsets.getD (j - 1) 0
            + (recomputeLayout w s fromIndex).heights.getD (j - 1) 0) ∧
      (∀ j, j < (recomputeLayout w s fromIndex).groups.length →
        (recomputeLayout w s fromIndex).offsets.getD j 0
          = ((recomputeLayout w s fromIndex).heights.take j).sum) ∧
      (recomputeLayout w s fromIndex).totalHeight
        = (recomputeLayout w s fromIndex).heights.sum := by
  have hinv : ∀ j, j < fromIndex → s.offsets.getD j 0 = (s.heights.take j).sum := by
    intro j
    induction j with
    | zero => intro hj; simpa using hinv0 hj
    | succ k ihk =>
      intro hj
      rw [hinvS (k + 1) (by omega) hj]
      simp only [Nat.add_sub_cancel]
      rw [ihk (by omega), ← sum_take_succ_getD s.heights k (by omega)]
  obtain ⟨hA, hHlen, hOlen, hvals, hth⟩ := recomputeLayout_spec w s fromIndex hh1 hh2 ho1 ho2 hinv
  have hg : (recomputeLayout w s fromIndex).groups = s.groups := rfl
  rw [hg]
  refine ⟨?_, ?_, ?_, hth⟩
  · intro _
    rw [hvals 0 (by omega)]
    simp
  · intro j hj0 hjn
    rw [hvals j hjn, hvals (j - 1) (by omega),
      ← sum_take_succ_getD _ (j - 1) (by rw [hHlen]; omega),
      show j - 1 + 1 = j by omega]
  · intro j hjn
    exact hvals j hjn

/-- a one-image group used in concrete witnesses. -/
def gOne : Group := ⟨["u1"], "2024-01-01"⟩

/-- a seven-image group used in concrete witnesses. -/
def gSeven : Group := ⟨["a", "b", "c", "d", "e", "f", "g"], "2024-01-02"⟩

/-- a concrete two-group state whose layout table is filled in below
index 1 only, as right after appending a second group. -/
def c1state : ListState :=
  ⟨"blood_pressure", "2024-01", 2, 10, 5, [gOne, gSeven], [177], [0], 177, false⟩

theorem claim_C1_witness :
    (recomputeLayout 375 c1state 1).totalHeight
        = (recomputeLayout 375 c1state 1).heights.sum ∧
      (recomputeLayout 375 c1state 1).offsets.getD 1 0
        = ((recomputeLayout 375 c1state 1).heights.take 1).sum := by
  have h := claim_C1_recomputeLayout_invariant 375 c1state 1
    (by decide) (by decide) (by decide) (by decide)
    (fun _ => by decide)
    (fun j hj0 hj1 => absurd (lt_of_lt_of_le hj0 (Nat.le_of_lt_succ hj1)) (lt_irrefl 0))
  exact ⟨h.2.2.2, h.2.2.1 1 (by decide)⟩

/-- C10: for `fromIndex ≤ groups.length` (with the table entries below
`fromIndex` present), `recomputeLayout(fromIndex)` leaves `heights[i]`
and `offsets[i]` unchanged for every `i < fromIndex` and leaves the
group sequence unchanged. -/
theorem claim_C10_recomputeLayout_frame (w : Nat) (s : ListState) (fromIndex : Nat)
    (hn : fromIndex ≤ s.groups.length)
    (hh : fromIndex ≤ s.heights.length) (ho : fromIndex ≤ s.offsets.length) :
    (recomputeLayout w s fromIndex).groups = s.groups ∧
      ∀ j, j < fromIndex →
        (recomputeLayout w s fromIndex).heights[j]? = s.heights[j]? ∧
          (recomputeLayout w s fromIndex).offsets[j]? = s.offsets[j]? := by
  refine ⟨rfl, ?_⟩
  intro j hj
  exact layoutLoop_frame w (s.groups.drop fromIndex) fromIndex s.heights s.offsets j hj hh ho

theorem claim_C10_witness :
    (recomputeLayout 375 c1state 1).groups = c1state.groups ∧
      (recomputeLayout 375 c1state 1).heights[0]? = c1state.heights[0]? ∧
      (recomputeLayout 375 c1state 1).offsets[0]? = c1state.offsets[0]? := by
  have h := claim_C10_recomputeLayout_frame 375 c1state 1 (by decide) (by decide) (by decide)
  exact ⟨h.1, h.2 0 (by decide)⟩

/-! ### claims about the fetch controller -/

/-- C3: a "load more" (`loadPage` with `reset = false`) that fails with
a non-abort error leaves `groups`, `heights`, `offsets`, `totalHeight`
and `total` equal to their values at the moment the request was
issued.  The layout-consistency hypotheses say the table was up to
date for the current container width `w` when the request was issued,
which holds in every reachable state (the error handler re-runs
`recomputeLayout(0)` on the restored snapshot, so a width change while
the request is in flight is folded into the restored table). -/
theorem claim_C3_load_more_failure_rollback (w : Nat) (s : ListState)
    (hload : s.isLoading = false) (hcat : ¬ s.categoryCode = "")
    (hc : s.heights = s.groups.map (computeItemHeight w))
    (holen : s.offsets.length = s.groups.length)
    (hoinv : ∀ j, j < s.groups.length → s.offsets.getD j 0 = (s.heights.take j).sum)
    (hth : s.totalHeight = s.heights.sum) :
    (loadPage w false s .failure).state.groups = s.groups ∧
      (loadPage w false s .failure).state.heights = s.heights ∧
      (loadPage w false s .failure).state.offsets = s.offsets ∧
      (loadPage w false s .failure).state.totalHeight = s.totalHeight ∧
      (loadPage w false s .failure).state.total = s.total := by
  have hIss : loadPageIssue false s
      = ⟨{ s with isLoading := true },
         some ⟨false, s.groups, s.heights, s.offsets, s.totalHeight, s.total⟩, 0⟩ := by
    unfold loadPageIssue
    rw [if_neg (by rw [hload]; simp), if_neg hcat]
    rfl
  have hLP : loadPage w false s .failure
      = ⟨{ recomputeLayout w { s with isLoading := true } 0 with isLoading := false },
         true, 0⟩ := by
    unfold loadPage
    rw [hIss]
    rfl
  have hhlen : s.heights.length = s.groups.length := by rw [hc]; simp
  obtain ⟨hA, hHlen, hOlen, hvals, htot⟩ :=
    recomputeLayout_spec w { s with isLoading := true } 0
      (by omega) (by simpa using hhlen.le) (by omega) (by simpa using holen.le)
      (by intro j hj; omega)
  simp only [List.take_zero, List.drop_zero, List.nil_append] at hA
  have hA' : (recomputeLayout w { s with isLoading := true } 0).heights = s.heights := by
    rw [hA, ← hc]
  rw [hLP]
  refine ⟨rfl, hA', ?_, ?_, rfl⟩
  · -- the recomputed offsets list coincides with the snapshot offsets
    refine List.ext_getElem (by rw [hOlen]; exact holen.symm ▸ rfl) ?_
    intro k h1 h2
    have hk : k < s.groups.length := by
      have := hOlen
      simp only [this] at h1
      exact h1
    have e1 := hvals k hk
    have e2 := hoinv k hk
    rw [hA'] at e1
    have g1 : (recomputeLayout w { s with isLoading := true } 0).offsets[k]
        = (s.heights.take k).sum := by
      rw [← List.getD_eq_getElem _ 0 h1]
      exact e1
    have g2 : s.offsets[k] = (s.heights.take k).sum := by
      rw [← List.getD_eq_getElem _ 0 h2]
      exact e2
    rw [g1, g2]
  · rw [htot, hA', hth]

/-- a consistent single-group state used as a concrete witness. -/
def c3state : ListState :=
  ⟨"blood_pressure", "2024-01", 3, 10, 5, [gOne],
   [computeItemHeight 375 gOne], [0], computeItemHeight 375 gOne, false⟩

theorem claim_C3_witness :
    (loadPage 375 false c3state .failure).state.groups = c3state.groups ∧
      (loadPage 375 false c3state .failure).state.heights = c3state.heights ∧
      (loadPage 375 false c3state .failure).state.offsets = c3state.offsets ∧
      (loadPage 375 false c3state .failure).state.totalHeight = c3state.totalHeight ∧
      (loadPage 375 false c3state .failure).state.total = c3state.total :=
  claim_C3_load_more_failure_rollback 375 c3state (by decide)
    (by decide) (by decide) (by decide)
    (by
      intro j hj
      have hj1 : j < 1 := hj
      have hj0 : j = 0 := by omega
      subst hj0
      decide)
    (by decide)

/-- an all-empty state with `total = 0`: served page says no records. -/
def c4empty : ListState := ⟨"blood_pressure", "2024-01", 1, 10, 0, [], [], [], 0, false⟩

/-- C4 counterexample: with `total = 0` and an empty group list,
`groups.length === total` holds but `isAllLoaded()` is `false`
(the guard requires `total > 0`), refuting the claimed equivalence
"all-loaded exactly when `groups.length === total`, including
`total = 0`". -/
theorem claim_C4_counterexample :
    c4empty.groups.length = c4empty.total ∧ isAllLoaded c4empty = false := by decide

/-- the state after the initial reset fetch of the 25-record scenario
(page size 10, server total 25). -/
def c4s1 : ListState :=
  (loadPage 375 true ⟨"blood_pressure", "2024-01", 1, 10, 0, [], [], [], 0, false⟩
    (.success 25 (List.replicate 10 gOne))).state

/-- after the second (load-more) fetch of the scenario. -/
def c4s2 : ListState := (loadPage 375 false c4s1 (.success 25 (List.replicate 10 gOne))).state

/-- after the third (load-more) fetch of the scenario. -/
def c4s3 : ListState := (loadPage 375 false c4s2 (.success 25 (List.replicate 5 gOne))).state

/-- C4 (amended): the all-loaded condition is `total > 0 ∧
groups.length ≥ total`; for a positive total with `groups.length ≤
total` this is exactly `groups.length = total`, but `total = 0` with
an empty list is not all-loaded.  Concrete scenario: page size 10,
server total 25 — after three successful fetches `groups.length = 25`,
the flag is true, and a further scroll triggers no fetch. -/
theorem claim_C4_amended (s : ListState) :
    (isAllLoaded s = true ↔ 0 < s.total ∧ s.total ≤ s.groups.length) ∧
      (0 < s.total → s.groups.length ≤ s.total →
        (isAllLoaded s = true ↔ s.groups.length = s.total)) ∧
      c4s3.groups.length = 25 ∧
      isAllLoaded c4s3 = true ∧
      ∀ scrollTop clientHeight : Int, handleScroll c4s3 scrollTop clientHeight = false := by
  refine ⟨?_, ?_, by decide, by decide, ?_⟩
  · simp [isAllLoaded]
  · intro h1 h2
    simp [isAllLoaded]
    omega
  · intro scrollTop clientHeight
    have ha : isAllLoaded c4s3 = true := by decide
    have hl : c4s3.isLoading = false := by decide
    simp [handleScroll, ha, hl]

theorem claim_C4_witness :
    (isAllLoaded c4s3 = true ↔ c4s3.groups.length = c4s3.total) :=
  (claim_C4_amended c4s3).2.1 (by decide) (by decide)

/-- C9: with an empty category code (and no request already in
flight), `loadPage` shows exactly one configuration-error toast,
issues no request, and leaves the state unchanged — no retry is
scheduled. -/
theorem claim_C9_missing_category (w : Nat) (reset : Bool) (s : ListState)
    (outcome : FetchOutcome)
    (hload : s.isLoading = false) (hcat : s.categoryCode = "") :
    (loadPage w reset s outcome).state = s ∧
      (loadPage w reset s outcome).requestSent = false ∧
      (loadPage w reset s outcome).configToasts = 1 := by
  have hIss : loadPageIssue reset s = ⟨s, none, 1⟩ := by
    unfold loadPageIssue
    rw [if_neg (by rw [hload]; simp), if_pos hcat]
  unfold loadPage
  rw [hIss]
  exact ⟨rfl, rfl, rfl⟩

/-- a populated state whose category code is empty. -/
def c9state : ListState := ⟨"", "2024-02", 3, 10, 7, [gOne], [177], [0], 177, false⟩

theorem claim_C9_witness :
    (loadPage 375 true c9state .failure).state = c9state ∧
      (loadPage 375 true c9state .failure).requestSent = false ∧
      (loadPage 375 true c9state .failure).configToasts = 1 :=
  claim_C9_missing_category 375 true c9state .failure (by decide) (by decide)

/-- an old-month state with a load-more about to be issued. -/
def c5start : ListState :=
  ⟨"blood_pressure", "2024-04", 2, 10, 4, [gOne, gSeven], [177, 411], [0, 177], 588, false⟩

/-- the old-month page-2 group delivered by the pending response. -/
def c5gOld : Group := ⟨["old"], "2024-04-20"⟩

/-- the load-more request is issued on the old month. -/
def c5afterIssue : IssueResult := loadPageIssue false c5start

/-- the month filter changes while that request is pending. -/
def c5afterMonth : IssueResult := monthChange "2024-05" c5afterIssue.state

/-- then the pending old-month response completes successfully. -/
def c5final : ListState :=
  match c5afterIssue.pending with
  | some p => applyOutcome 375 p (.success 4 [c5gOld]) c5afterMonth.state
  | none => c5afterMonth.state

/-- C5: evaluation of the code at the claimed scenario.  A month
change while a load-more is pending leaves the pending request alive:
the month-change handler's `loadPage({reset:true})` returns at the
`state.isLoading` guard before ever reaching `cancelInFlight()`
(`c5afterMonth.pending = none` — no new request is issued), and the
pending old-month response is then applied to the cleared list, so the
final list shows the old filter's page (`[c5gOld]`) under the new
month — the pending response is not discarded, contradicting the
claim. -/
theorem claim_C5_stale_response_applied :
    c5afterIssue.pending.isSome = true ∧
      c5afterMonth.pending = none ∧
      c5final.groups = [c5gOld] ∧
      c5final.reportMonth = "2024-05" ∧
      c5final.total = 4 := by decide

/-! ### claims about the viewer and the height formula -/

/-- an open viewer on two images, at the first image. -/
def c6viewer : ViewerState := ⟨true, ["a", "b"], 0⟩

/-- C6 counterexample: a load issued for index 0 (`url "a"`) completes
after the viewer has navigated to index 1; `img.onload` only checks
`state.viewer.isOpen`, so the stale image is rendered
(`some "a"`), contradicting "never rendered ... still at that load's
index". -/
theorem claim_C6_counterexample :
    startViewerLoad c6viewer = ⟨"a", 0⟩ ∧
      (nextImage c6viewer).index = 1 ∧
      (nextImage c6viewer).index ≠ (startViewerLoad c6viewer).forIndex ∧
      onViewerImageLoad (nextImage c6viewer) (startViewerLoad c6viewer) = some "a" := by
  decide

/-- C6 (amended): a completed viewer load is rendered exactly when the
viewer is still open — loads completing after `closeViewer` are
discarded, but the handler does not compare the current index with
the load's index, so a load for a previous index is still rendered
while the viewer is open. -/
theorem claim_C6_amended (v : ViewerState) (load : ViewerLoad) :
    (v.isOpen = false → onViewerImageLoad v load = none) ∧
      (v.isOpen = true → onViewerImageLoad v load = some load.url) := by
  constructor <;> intro h <;> simp [onViewerImageLoad, h]

theorem claim_C6_witness :
    onViewerImageLoad (closeViewer c6viewer) ⟨"a", 0⟩ = none :=
  (claim_C6_amended (closeViewer c6viewer) ⟨"a", 0⟩).1 (by decide)

/-- C7 counterexample: with scroll-container width 375 the thumbnail
edge the code computes is `max(56, floor((375 - 32 - 16)/3)) = 109`
pixels, not ≈ 119 (119 would require skipping the 32px horizontal
padding subtraction). -/
theorem claim_C7_counterexample :
    thumbSize 375 = 109 ∧ thumbSize 375 ≠ 119 := by decide

/-- C7 (amended): with scroll-container width 375 and gap 8, a group
with 7 images is laid out as `ceil(7/3) = 3` rows with a per-thumbnail
edge of `floor(((375 - 32) - 2*8)/3) = 109` px (the grid width is the
container width minus 32px horizontal padding, and the edge is clamped
below at 56); grid height = `rows*thumb + (rows-1)*gap = 343`, and the
item height adds the fixed vertical paddings/header:
`16 + 24 + 12 + 343 + 16 = 411`. -/
theorem claim_C7_amended :
    (gSeven.image_urls.length + 2) / 3 = 3 ∧
      thumbSize 375 = ((375 - 32) - 2 * 8) / 3 ∧
      thumbSize 375 = 109 ∧
      computeItemHeight 375 gSeven = 16 + 24 + 12 + (3 * 109 + (3 - 1) * 8) + 16 ∧
      computeItemHeight 375 gSeven = 411 := by decide

/-- index after `k` applications of `nextImage`: `(index + k) % N`. -/
theorem applyN_nextImage_index (k : Nat) :
    ∀ v : ViewerState, v.index < v.images.length →
      (applyN nextImage k v).index = (v.index + k) % v.images.length ∧
        (applyN nextImage k v).images = v.images := by
  induction k with
  | zero => intro v hv; exact ⟨(Nat.mod_eq_of_lt hv).symm, rfl⟩
  | succ m ih =>
    intro v hv
    have hne : ¬ v.images.length = 0 := by omega
    have hstep : nextImage v = { v with index := (v.index + 1) % v.images.length } := by
      unfold nextImage
      rw [if_neg hne]
    have happ : applyN nextImage (m + 1) v = applyN nextImage m (nextImage v) := rfl
    have hlt : (v.index + 1) % v.images.length < v.images.length :=
      Nat.mod_lt _ (by omega)
    obtain ⟨hi, hm⟩ := ih { v with index := (v.index + 1) % v.images.length } hlt
    rw [happ, hstep]
    refine ⟨?_, hm⟩
    rw [hi]
    simp only [Nat.mod_add_mod]
    congr 1
    omega

/-- index after `k` applications of `prevImage`: `(index + k*(N-1)) % N`. -/
theorem applyN_prevImage_index (k : Nat) :
    ∀ v : ViewerState, v.index < v.images.length →
      (applyN prevImage k v).index = (v.index + k * (v.images.length - 1)) % v.images.length ∧
        (applyN prevImage k v).images = v.images := by
  induction k with
  | zero => intro v hv; exact ⟨by simpa using (Nat.mod_eq_of_lt hv).symm, rfl⟩
  | succ m ih =>
    intro v hv
    have hne : ¬ v.images.length = 0 := by omega
    have hstep : prevImage v
        = { v with index := (v.index + v.images.length - 1) % v.images.length } := by
      unfold prevImage
      rw [if_neg hne]
    have happ : applyN prevImage (m + 1) v = applyN prevImage m (prevImage v) := rfl
    have hlt : (v.index + v.images.length - 1) % v.images.length < v.images.length :=
      Nat.mod_lt _ (by omega)
    obtain ⟨hi, hm⟩ :=
      ih { v with index := (v.index + v.images.length - 1) % v.images.length } hlt
    rw [happ, hstep]
    refine ⟨?_, hm⟩
    rw [hi]
    simp only [Nat.mod_add_mod]
    congr 1
    have h2 : v.index + v.images.length - 1 = v.index + (v.images.length - 1) := by omega
    rw [h2]
    ring

/-- C8: with `N ≥ 1` images and `index < N`, `nextImage` sets the index
to `(index+1) mod N` and `prevImage` to `(index-1+N) mod N`; `N`
consecutive applications of either return the index to its start
(period `N`); with `N = 1` each resolves back to the same index, and
with 0 images both are no-ops. -/
theorem claim_C8_viewer_navigation (v : ViewerState) :
    (v.images = [] → nextImage v = v ∧ prevImage v = v) ∧
      (v.index < v.images.length →
        (nextImage v).index = (v.index + 1) % v.images.length ∧
          (prevImage v).index = (v.index + v.images.length - 1) % v.images.length ∧
          (applyN nextImage v.images.length v).index = v.index ∧
          (applyN prevImage v.images.length v).index = v.index ∧
          (v.images.length = 1 →
            (nextImage v).index = v.index ∧ (prevImage v).index = v.index)) := by
  constructor
  · intro he
    have h0 : v.images.length = 0 := by rw [he]; rfl
    unfold nextImage prevImage
    rw [if_pos h0, if_pos h0]
    exact ⟨rfl, rfl⟩
  · intro hv
    have hne : ¬ v.images.length = 0 := by omega
    have hnext : (nextImage v).index = (v.index + 1) % v.images.length := by
      unfold nextImage
      rw [if_neg hne]
    have hprev : (prevImage v).index
        = (v.index + v.images.length - 1) % v.images.length := by
      unfold prevImage
      rw [if_neg hne]
    have hN := (applyN_nextImage_index v.images.length v hv).1
    have hP := (applyN_prevImage_index v.images.length v hv).1
    rw [Nat.add_mod_right] at hN
    rw [Nat.mod_eq_of_lt hv] at hN
    have hPmul : v.index + v.images.length * (v.images.length - 1)
        = v.index + (v.images.length - 1) * v.images.length := by ring_nf
    rw [hPmul, Nat.add_mul_mod_self_right, Nat.mod_eq_of_lt hv] at hP
    refine ⟨hnext, hprev, hN, hP, ?_⟩
    intro h1
    have hidx : v.index = 0 := by omega
    rw [hnext, hprev, h1, hidx]
    exact ⟨by decide, by decide⟩

theorem claim_C8_witness :
    (applyN nextImage c6viewer.images.length c6viewer).index = c6viewer.index ∧
      (applyN prevImage c6viewer.images.length c6viewer).index = c6viewer.index := by
  have h := (claim_C8_viewer_navigation c6viewer).2 (by decide)
  exact ⟨h.2.2.1, h.2.2.2.1⟩

/-! ### binary search over the offset table -/

/-- with a negative probe the loop always moves `high` down and exits
with the initial `low`. -/
theorem bsearchLoop_neg (offsets heights : List Nat) (n : Nat) (probe : Int)
    (hp : probe < 0) :
    ∀ (fuel : Nat) (low : Nat) (high : Int), (high + 1 - low).toNat < fuel →
      bsearchLoop offsets heights n probe fuel low high = min low (n - 1) := by
  intro fuel
  induction fuel with
  | zero => intro low high hm; exact absurd hm (Nat.not_lt_zero _)
  | succ f ih =>
    intro low high hm
    simp only [bsearchLoop]
    by_cases hlh : (low : Int) ≤ high
    · rw [if_pos hlh, if_neg (by omega), if_pos (by omega)]
      refine ih low (((low + high.toNat) / 2 : Nat) - 1) ?_
      have h1 : low ≤ (low + high.toNat) / 2 := by omega
      have h2 : (low + high.toNat) / 2 ≤ high.toNat := by omega
      omega
    · rw [if_neg hlh]

/-- when the probe is at least every interval end and `high = n - 1`,
the loop exits past the right edge and is clamped to `n - 1`. -/
theorem bsearchLoop_ge (offsets heights : List Nat) (n : Nat) (probe : Int)
    (hstop : ∀ j, j < n → ((offsets.getD j 0 + heights.getD j 0 : Nat) : Int) ≤ probe) :
    ∀ (fuel : Nat) (low : Nat), low ≤ n → (((n : Int) - 1) + 1 - low).toNat < fuel →
      bsearchLoop offsets heights n probe fuel low ((n : Int) - 1) = n - 1 := by
  intro fuel
  induction fuel with
  | zero => intro low hl hm; exact absurd hm (Nat.not_lt_zero _)
  | succ f ih =>
    intro low hl hm
    simp only [bsearchLoop]
    by_cases hlh : (low : Int) ≤ (n : Int) - 1
    · have hmidn : (low + ((n : Int) - 1).toNat) / 2 < n := by omega
      rw [if_pos hlh, if_pos (hstop _ hmidn)]
      refine ih ((low + ((n : Int) - 1).toNat) / 2 + 1) (by omega) ?_
      have h1 : low ≤ (low + ((n : Int) - 1).toNat) / 2 := by omega
      omega
    · rw [if_neg hlh]
      omega

/-- when index `t` is the interval containing the probe, the loop
converges to `t`. -/
theorem bsearchLoop_target (offsets heights : List Nat) (n : Nat) (probe : Int) (t : Nat)
    (hinv : ∀ j, j < n → offsets.getD j 0 = (heights.take j).sum)
    (hlen : heights.length = n)
    (ht : t < n)
    (hlo : (((heights.take t).sum : Nat) : Int) ≤ probe)
    (hhi : probe < (((heights.take t).sum + heights.getD t 0 : Nat) : Int)) :
    ∀ (fuel : Nat) (low : Nat) (high : Int),
      low ≤ t → (t : Int) ≤ high → high ≤ (n : Int) - 1 →
      (high + 1 - low).toNat < fuel →
      bsearchLoop offsets heights n probe fuel low high = t := by
  intro fuel
  induction fuel with
  | zero => intro low high h1 h2 h3 hm; exact absurd hm (Nat.not_lt_zero _)
  | succ f ih =>
    intro low high hlow hth hhn hm
    have hlh : (low : Int) ≤ high := le_trans (by exact_mod_cast hlow) hth
    have hmid1 : low ≤ (low + high.toNat) / 2 := by omega
    have hmid2 : (low + high.toNat) / 2 ≤ high.toNat := by omega
    have hmidn : (low + high.toNat) / 2 < n := by omega
    have emid : offsets.getD ((low + high.toNat) / 2) 0
        = (heights.take ((low + high.toNat) / 2)).sum := hinv _ hmidn
    have et : (heights.take (t + 1)).sum = (heights.take t).sum + heights.getD t 0 :=
      sum_take_succ_getD heights t (by omega)
    simp only [bsearchLoop]
    rw [if_pos hlh]
    by_cases hstop :
        ((offsets.getD ((low + high.toNat) / 2) 0
          + heights.getD ((low + high.toNat) / 2) 0 : Nat) : Int) ≤ probe
    · rw [if_pos hstop]
      have hmidt : (low + high.toNat) / 2 < t := by
        by_contra hc
        push_neg at hc
        have e3 : (heights.take ((low + high.toNat) / 2 + 1)).sum
            = (heights.take ((low + high.toNat) / 2)).sum
              + heights.getD ((low + high.toNat) / 2) 0 :=
          sum_take_succ_getD heights _ (by omega)
        have e2 : (heights.take (t + 1)).sum
            ≤ (heights.take ((low + high.toNat) / 2 + 1)).sum :=
          sum_take_mono heights _ _ (by omega)
        rw [emid] at hstop
        omega
      exact ih _ high (by omega) hth hhn (by omega)
    · rw [if_neg hstop]
      by_cases hlt : probe < ((offsets.getD ((low + high.toNat) / 2) 0 : Nat) : Int)
      · rw [if_pos hlt]
        have hmidt : t < (low + high.toNat) / 2 := by
          by_contra hc
          push_neg at hc
          have e2 : (heights.take ((low + high.toNat) / 2)).sum ≤ (heights.take t).sum :=
            sum_take_mono heights _ _ hc
          rw [emid] at hlt
          omega
        exact ih low (((low + high.toNat) / 2 : Nat) - 1) hlow (by omega) (by omega) (by omega)
      · rw [if_neg hlt]
        rcases lt_trichotomy ((low + high.toNat) / 2) t with hjt | hjt | hjt
        · exfalso
          have e3 : (heights.take ((low + high.toNat) / 2 + 1)).sum
              = (heights.take ((low + high.toNat) / 2)).sum
                + heights.getD ((low + high.toNat) / 2) 0 :=
            sum_take_succ_getD heights _ (by omega)
          have e2 : (heights.take ((low + high.toNat) / 2 + 1)).sum
              ≤ (heights.take t).sum :=
            sum_take_mono heights _ _ (by omega)
          rw [emid] at hstop
          omega
        · exact hjt
        · exfalso
          have e2 : (heights.take (t + 1)).sum
              ≤ (heights.take ((low + high.toNat) / 2)).sum :=
            sum_take_mono heights _ _ (by omega)
          rw [emid] at hlt
          omega

/-- every probe below the total height falls into some row interval. -/
theorem exists_interval (heights : List Nat) :
    ∀ q : Nat, q < heights.sum →
      ∃ t, t < heights.length ∧ (heights.take t).sum ≤ q ∧ q < (heights.take (t + 1)).sum := by
  induction heights with
  | nil => intro q hq; simp at hq
  | cons h hs ih =>
    intro q hq
    by_cases hlt : q < h
    · exact ⟨0, by simp, by simp, by simpa using hlt⟩
    · push_neg at hlt
      have hq' : q - h < hs.sum := by
        simp only [List.sum_cons] at hq
        omega
      obtain ⟨t, ht1, ht2, ht3⟩ := ih (q - h) hq'
      refine ⟨t + 1, by simp; omega, ?_, ?_⟩
      · simp only [List.take_succ_cons, List.sum_cons]
        omega
      · simp only [List.take_succ_cons, List.sum_cons]
        omega

/-- C2: over a layout table with `n ≥ 1` entries satisfying the offset
invariant with strictly positive heights, `findIndexByScrollTop(probe)`
returns the unique index `i` with `offsets[i] ≤ probe <
offsets[i]+heights[i]` for probes in `[0, totalHeight)`, returns 0 for
every `probe < 0`, and returns `n-1` for every `probe ≥ totalHeight`
(`totalHeight` being the sum of all heights under the invariant). -/
theorem claim_C2_findIndexByScrollTop (offsets heights : List Nat) (n : Nat) (probe : Int)
    (hn : 1 ≤ n) (hlen : heights.length = n) (holen : offsets.length = n)
    (hinv : ∀ j, j < n → offsets.getD j 0 = (heights.take j).sum)
    (hpos : ∀ j, j < n → 0 < heights.getD j 0) :
    (probe < 0 → findIndexByScrollTop offsets heights n probe = 0) ∧
      ((heights.sum : Int) ≤ probe →
        findIndexByScrollTop offsets heights n probe = n - 1) ∧
      (0 ≤ probe → probe < (heights.sum : Int) →
        findIndexByScrollTop offsets heights n probe < n ∧
          ((offsets.getD (findIndexByScrollTop offsets heights n probe) 0 : Nat) : Int)
              ≤ probe ∧
          probe < ((offsets.getD (findIndexByScrollTop offsets heights n probe) 0
              + heights.getD (findIndexByScrollTop offsets heights n probe) 0 : Nat) : Int) ∧
          ∀ j, j < n → ((offsets.getD j 0 : Nat) : Int) ≤ probe →
            probe < ((offsets.getD j 0 + heights.getD j 0 : Nat) : Int) →
            j = findIndexByScrollTop offsets heights n probe) := by
  refine ⟨?_, ?_, ?_⟩
  · intro hp
    unfold findIndexByScrollTop
    rw [bsearchLoop_neg offsets heights n probe hp (n + 1) 0 ((n : Int) - 1) (by omega)]
    omega
  · intro hp
    have hstop : ∀ j, j < n →
        ((offsets.getD j 0 + heights.getD j 0 : Nat) : Int) ≤ probe := by
      intro j hj
      have e1 := hinv j hj
      have e2 := sum_take_succ_getD heights j (by omega)
      have e3 := sum_take_le heights (j + 1)
      omega
    unfold findIndexByScrollTop
    exact bsearchLoop_ge offsets heights n probe hstop (n + 1) 0 (by omega) (by omega)
  · intro hp0 hps
    obtain ⟨t, ht1, ht2, ht3⟩ := exists_interval heights probe.toNat (by omega)
    have htn : t < n := by omega
    have et : (heights.take (t + 1)).sum = (heights.take t).sum + heights.getD t 0 :=
      sum_take_succ_getD heights t (by omega)
    have hfind : findIndexByScrollTop offsets heights n probe = t := by
      unfold findIndexByScrollTop
      exact bsearchLoop_target offsets heights n probe t hinv hlen htn
        (by omega) (by omega) (n + 1) 0 ((n : Int) - 1) (by omega) (by omega)
        (by omega) (by omega)
    rw [hfind]
    have eo := hinv t htn
    refine ⟨htn, by omega, by omega, ?_⟩
    intro j hj hjlo hjhi
    have ej := hinv j hj
    rcases lt_trichotomy j t with hjt | hjt | hjt
    · exfalso
      have e3 : (heights.take (j + 1)).sum
          = (heights.take j).sum + heights.getD j 0 :=
        sum_take_succ_getD heights j (by omega)
      have e2 : (heights.take (j + 1)).sum ≤ (heights.take t).sum :=
        sum_take_mono heights _ _ (by omega)
      omega
    · exact hjt
    · exfalso
      have e2 : (heights.take (t + 1)).sum ≤ (heights.take j).sum :=
        sum_take_mono heights _ _ (by omega)
      omega

theorem claim_C2_witness :
    findIndexByScrollTop [0, 10, 30] [10, 20, 5] 3 (-4) = 0 ∧
      findIndexByScrollTop [0, 10, 30] [10, 20, 5] 3 99 = 3 - 1 ∧
      findIndexByScrollTop [0, 10, 30] [10, 20, 5] 3 15 < 3 := by
  have h := claim_C2_findIndexByScrollTop [0, 10, 30] [10, 20, 5] 3 (-4)
    (by decide) (by decide) (by decide)
    (by intro j hj; have h3 : j < 3 := hj; interval_cases j <;> decide)
    (by intro j hj; have h3 : j < 3 := hj; interval_cases j <;> decide)
  have h2 := claim_C2_findIndexByScrollTop [0, 10, 30] [10, 20, 5] 3 99
    (by decide) (by decide) (by decide)
    (by intro j hj; have h3 : j < 3 := hj; interval_cases j <;> decide)
    (by intro j hj; have h3 : j < 3 := hj; interval_cases j <;> decide)
  have h3 := claim_C2_findIndexByScrollTop [0, 10, 30] [10, 20, 5] 3 15
    (by decide) (by decide) (by decide)
    (by intro j hj; have h3 : j < 3 := hj; interval_cases j <;> decide)
    (by intro j hj; have h3 : j < 3 := hj; interval_cases j <;> decide)
  exact ⟨h.1 (by decide), h2.2.1 (by decide), (h3.2.2 (by decide) (by decide)).1⟩

end ReviewRecordDetail
